import Mathlib

/-!
Verification of the content indexing and presentation pipeline of a
Next.js blog (post index, pagination engine, post resolver, tag index).

The TypeScript sources are shallowly embedded: arrays become lists,
strings become Lean strings compared code-unit-lexicographically as in
JavaScript, `Array.prototype.sort` with the date comparator becomes a
stable merge sort on the "may precede" relation of the comparator, and
`Array.prototype.slice` is modelled with full JavaScript semantics
(negative indices count from the end, out-of-range indices clamp).
-/

namespace CodeCraft

/-- Lexicographic code-unit comparison of character lists: the semantics of
the JavaScript `<` operator on strings, used by the date comparator. -/
def charsLt : List Char → List Char → Bool
  | _, [] => false
  | [], _ :: _ => true
  | a :: as, b :: bs => if a < b then true else if b < a then false else charsLt as bs

/-- JavaScript string comparison `s < t` (code-unit lexicographic). -/
def strLt (s t : String) : Bool := charsLt s.data t.data

/-- Post: the front-matter record exposed by the content pipeline
(`#site/content`). `date` is the front-matter date string (compared as a
JavaScript string), `tags` is the optional `tags?` field, and the opaque
`body` payload is omitted (it is consumed only by the content renderer,
never by the indexed operations verified here). -/
structure Post where
  slug : String
  slugAsParams : String
  title : String
  description : Option String
  date : String
  tags : Option (List String)
  published : Bool
deriving DecidableEq

/-- The date comparator of `sortPosts` (src/lib/utils.ts) returns -1 when
`a.date > b.date`, 1 when `a.date < b.date`, and 0 otherwise. In a stable
sort, `a` may stay before `b` exactly when the comparator is nonpositive,
that is when `a.date < b.date` is false. -/
def postCmpLe (a b : Post) : Bool := !(strLt a.date b.date)

/-- sortPosts (src/lib/utils.ts): `posts.sort(cmp)` with the date-descending
comparator. `Array.prototype.sort` is a stable sort consistent with the
comparator, modelled by a stable merge sort on `postCmpLe`. -/
def sortPosts (posts : List Post) : List Post := posts.mergeSort postCmpLe

/-- JavaScript `Array.prototype.sort` sorts the array in place and returns
the array itself: after `sortPosts(arr)` the array the caller passed holds
the sorted sequence, not its original order. -/
def callerArrayAfterSortPosts (arr : List Post) : List Post := sortPosts arr

/-- Resolve one argument of `Array.prototype.slice` to an element index:
a negative index counts from the end of the array (clamped at 0), a
nonnegative index is clamped at the array length. -/
def jsSliceIndex (len : Nat) (t : Int) : Nat :=
  if t < 0 then ((len : Int) + t).toNat else min t.toNat len

/-- JavaScript `l.slice(a, b)`: the elements with indices in
`[jsSliceIndex a, jsSliceIndex b)`. -/
def jsSlice (l : List α) (a b : Int) : List α :=
  (l.take (jsSliceIndex l.length b)).drop (jsSliceIndex l.length a)

/-- POSTS_PER_PAGE (src/app/blog/page.tsx). -/
def POSTS_PER_PAGE : Nat := 5

/-- The slice of an ordered post list shown for page `p` with page size `N`:
`sortedPosts.slice(N * (p - 1), N * p)` as in src/app/blog/page.tsx (there
with `N = POSTS_PER_PAGE`). -/
def paginateSlice (N : Nat) (p : Int) (l : List Post) : List Post :=
  jsSlice l ((N : Int) * (p - 1)) ((N : Int) * p)

/-- totalPages (src/app/blog/page.tsx): `Math.ceil(len / N)` on a natural
count, here for page size `N`. -/
def totalPagesOf (N len : Nat) : Nat := (len + N - 1) / N

/-- displayPosts of the blog list page for an already sorted post list and an
(integer) current page: `sortedPosts.slice(POSTS_PER_PAGE * (currentPage - 1),
POSTS_PER_PAGE * currentPage)`. -/
def displayPosts (sortedPosts : List Post) (currentPage : Int) : List Post :=
  paginateSlice POSTS_PER_PAGE currentPage sortedPosts

/-- totalPages as computed by the blog list page (page size 5). -/
def totalPages (len : Nat) : Nat := totalPagesOf POSTS_PER_PAGE len

/-- JavaScript `String.prototype.split` with a one-character separator, on
character lists. `"".split(sep)` is `[""]`; adjacent separators yield empty
segments. -/
def jsSplitOnChar (sep : Char) : List Char → List (List Char)
  | [] => [[]]
  | c :: cs =>
    match jsSplitOnChar sep cs with
    | [] => [[]]
    | seg :: rest => if c = sep then [] :: seg :: rest else (c :: seg) :: rest

/-- JavaScript `Array.prototype.join` with a one-character separator, on
character lists. -/
def joinChars (sep : Char) : List (List Char) → List Char
  | [] => []
  | [x] => x
  | x :: y :: rest => x ++ sep :: joinChars sep (y :: rest)

/-- `post.slugAsParams.split("/")`: the path segments of a post, as produced
by generateStaticParams (src/app/blog/[...slug]/page.tsx). -/
def splitSlug (s : String) : List String := (jsSplitOnChar '/' s.data).map String.mk

/-- `params.slug.join("/")`: the lookup key built by getPostFromParams. -/
def joinSlug (params : List String) : String :=
  String.mk (joinChars '/' (params.map String.data))

/-- generateStaticParams (src/app/blog/[...slug]/page.tsx): one path-segment
sequence per post, published or not. -/
def generateStaticParams (posts : List Post) : List (List String) :=
  posts.map fun post => splitSlug post.slugAsParams

/-- getPostFromParams (src/app/blog/[...slug]/page.tsx): join the segments
with "/" and scan the store for the first post whose slugAsParams equals the
key. -/
def getPostFromParams (posts : List Post) (slugParams : List String) : Option Post :=
  posts.find? fun post => post.slugAsParams == joinSlug slugParams

/-- Caller-visible outcome of the detail page: either the not-found response
or a rendered post. -/
inductive PageView where
  | notFound : PageView
  | rendered : Post → PageView
deriving DecidableEq

/-- PostPage (src/app/blog/[...slug]/page.tsx): resolve the params; if no
post is found or the post is unpublished, produce not-found, otherwise
render the post. -/
def postPage (posts : List Post) (slugParams : List String) : PageView :=
  match getPostFromParams posts slugParams with
  | none => .notFound
  | some post => if post.published then .rendered post else .notFound

/-- One step of the tag-counting loop of getAllTags:
`tags[tag] = (tags[tag] ?? 0) + 1` on a JavaScript object, modelled as an
insertion-ordered association list (an existing key keeps its position, a
new key is appended). -/
def recordInc (m : List (String × Nat)) (t : String) : List (String × Nat) :=
  match m with
  | [] => [(t, 1)]
  | (k, v) :: rest => if k = t then (k, v + 1) :: rest else (k, v) :: recordInc rest t

/-- Property read `m[t]` on the record object: the value at the key, if
present. -/
def recordGet (m : List (String × Nat)) (t : String) : Option Nat :=
  (m.find? fun kv => kv.1 == t).map (·.2)

/-- getAllTags (src/lib/utils.ts): iterate every post of the input
(published or not); for each tag occurrence of the optional tag list bump
the counter of that tag; posts without a tags field contribute nothing. -/
def getAllTags (posts : List Post) : List (String × Nat) :=
  posts.foldl (fun tags post => (post.tags.getD []).foldl recordInc tags) []

/-- Number of (post, tag-occurrence) pairs for the label `t`: every post
counts, each occurrence counts, missing tag fields count as no tags. -/
def tagOccurrences (posts : List Post) (t : String) : Nat :=
  (posts.map fun post => (post.tags.getD []).count t).sum

/-- Characters that survive slug normalization unchanged: lowercase ASCII
letters, digits, hyphen and underscore. -/
def isSlugKeep (c : Char) : Bool := c.isLower || c.isDigit || c == '-' || c == '_'

/-- One character of the slug normalization: a space becomes a hyphen, a
URL-safe character is kept, anything else is stripped. -/
def slugChar (c : Char) : Option Char :=
  if c = ' ' then some '-' else if isSlugKeep c then some c else none

/-- Slug normalization on character lists: lowercase, then map spaces to
hyphens and strip special characters. -/
def slugChars (l : List Char) : List Char := (l.map Char.toLower).filterMap slugChar

/-- Modelled from the spec: the Slug Normalizer (the `slug` function of the
github-slugger package, a dependency whose code is not part of this
repository). Per the specification it produces a canonical lowercase,
hyphenated, URL-safe identifier from any string: lowercase the label, turn
spaces into hyphens, strip special characters; pure and total, empty output
allowed. The model covers ASCII labels (transliteration of non-ASCII
letters is not modelled). -/
def slug (s : String) : String := String.mk (slugChars s.data)

/-- getPostsByTagSlug (src/lib/utils.ts): keep the posts having at least one
tag whose slug equals the given tag string; posts without a tags field are
dropped. The tag argument itself is never normalized. -/
def getPostsByTagSlug (posts : List Post) (tag : String) : List Post :=
  posts.filter fun post =>
    match post.tags with
    | none => false
    | some ts => (ts.map slug).contains tag

/-- A JavaScript number as far as the page logic observes it: NaN, a signed
infinity, or a finite value (finite values are modelled as exact rationals;
binary floating-point rounding is not modelled). -/
inductive JsNum where
  | nan : JsNum
  | inf : Bool → JsNum
  | num : ℚ → JsNum
deriving DecidableEq

/-- Whitespace stripped by ToNumber on strings (main set). -/
def isJsWhitespace (c : Char) : Bool :=
  c == ' ' || c == '\t' || c == '\n' || c == '\r' || c == '\x0b' || c == '\x0c' || c == '\xa0'

def jsTrim (s : List Char) : List Char :=
  ((s.dropWhile isJsWhitespace).reverse.dropWhile isJsWhitespace).reverse

/-- Value of a decimal digit string. -/
def decDigitsVal (ds : List Char) : Nat := ds.foldl (fun n c => 10 * n + (c.toNat - 48)) 0

def hexDigitVal (c : Char) : Nat :=
  if c.isDigit then c.toNat - 48
  else if 'a' ≤ c ∧ c ≤ 'f' then c.toNat - 87
  else c.toNat - 55

/-- Value of a digit string in base `b` (used for the 0x / 0o / 0b forms). -/
def baseDigitsVal (b : Nat) (ds : List Char) : Nat :=
  ds.foldl (fun n c => b * n + hexDigitVal c) 0

def isHexDigit (c : Char) : Bool :=
  c.isDigit || ('a' ≤ c && c ≤ 'f') || ('A' ≤ c && c ≤ 'F')

def isOctDigit (c : Char) : Bool := '0' ≤ c && c ≤ '7'

def isBinDigit (c : Char) : Bool := c == '0' || c == '1'

/-- Split a character list at the first exponent marker e / E. -/
def splitExp : List Char → List Char × Option (List Char)
  | [] => ([], none)
  | c :: cs =>
    if c = 'e' ∨ c = 'E' then ([], some cs)
    else
      let r := splitExp cs
      (c :: r.1, r.2)

/-- Split a character list at the first decimal point. -/
def splitDot : List Char → List Char × Option (List Char)
  | [] => ([], none)
  | c :: cs =>
    if c = '.' then ([], some cs)
    else
      let r := splitDot cs
      (c :: r.1, r.2)

/-- Parse the exponent part following e / E: optional sign, then digits. -/
def parseExponent : List Char → Option Int
  | [] => none
  | '+' :: ds => if ds ≠ [] ∧ ds.all Char.isDigit then some (decDigitsVal ds) else none
  | '-' :: ds => if ds ≠ [] ∧ ds.all Char.isDigit then some (-(decDigitsVal ds : Int)) else none
  | ds => if ds.all Char.isDigit then some (decDigitsVal ds) else none

/-- Value of an unsigned decimal mantissa with integer part and fractional
part. -/
def mantissaVal (ip fp : List Char) : ℚ :=
  (decDigitsVal ip : ℚ) + (decDigitsVal fp : ℚ) / (10 : ℚ) ^ fp.length

/-- Parse a StrUnsignedDecimalLiteral (digits, optional fraction, optional
exponent): `12`, `12.`, `.5`, `1.25e-3`, ... -/
def parseUnsignedDec (s : List Char) : Option ℚ :=
  let me := splitExp s
  let eOpt : Option Int :=
    match me.2 with
    | none => some 0
    | some es => parseExponent es
  match eOpt with
  | none => none
  | some e =>
    let ifp := splitDot me.1
    match ifp.2 with
    | none =>
      if ifp.1 ≠ [] ∧ ifp.1.all Char.isDigit then
        if me.2 = none then some ((decDigitsVal ifp.1 : ℚ))
        else some ((decDigitsVal ifp.1 : ℚ) * (10 : ℚ) ^ e)
      else none
    | some fp =>
      if (ifp.1 ≠ [] ∨ fp ≠ []) ∧ ifp.1.all Char.isDigit ∧ fp.all Char.isDigit then
        some (mantissaVal ifp.1 fp * (10 : ℚ) ^ e)
      else none

/-- Parse `Infinity` or an unsigned decimal literal, applying the sign. -/
def parseUnsignedOrInf (neg : Bool) (s : List Char) : JsNum :=
  if s = "Infinity".data then JsNum.inf neg
  else
    match parseUnsignedDec s with
    | none => JsNum.nan
    | some q => JsNum.num (if neg then -q else q)

/-- Parse a whitespace-trimmed StringNumericLiteral: the empty string is 0,
a sign is only allowed on the decimal / Infinity form, and the 0x / 0o / 0b
integer forms take no sign. Anything else is NaN. -/
def parseNumericChars (s : List Char) : JsNum :=
  match s with
  | [] => JsNum.num 0
  | '+' :: rest => parseUnsignedOrInf false rest
  | '-' :: rest => parseUnsignedOrInf true rest
  | '0' :: x :: rest =>
    if x = 'x' ∨ x = 'X' then
      if rest ≠ [] ∧ rest.all isHexDigit then JsNum.num (baseDigitsVal 16 rest) else JsNum.nan
    else if x = 'o' ∨ x = 'O' then
      if rest ≠ [] ∧ rest.all isOctDigit then JsNum.num (baseDigitsVal 8 rest) else JsNum.nan
    else if x = 'b' ∨ x = 'B' then
      if rest ≠ [] ∧ rest.all isBinDigit then JsNum.num (baseDigitsVal 2 rest) else JsNum.nan
    else parseUnsignedOrInf false s
  | _ => parseUnsignedOrInf false s

/-- JavaScript `Number(searchParams?.page)`: `Number(undefined)` is NaN, a
string is trimmed and parsed as a StringNumericLiteral. -/
def jsNumber : Option String → JsNum
  | none => JsNum.nan
  | some s => parseNumericChars (jsTrim s.data)

/-- currentPage (src/app/blog/page.tsx): `Number(searchParams?.page) || 1`;
NaN and 0 are the falsy numbers replaced by 1. -/
def currentPage (pageParam : Option String) : JsNum :=
  match jsNumber pageParam with
  | JsNum.nan => JsNum.num 1
  | JsNum.num q => if q = 0 then JsNum.num 1 else JsNum.num q
  | JsNum.inf b => JsNum.inf b

/-- JavaScript subtraction of 1 on the number shapes reachable here. -/
def jsSubOne : JsNum → JsNum
  | JsNum.nan => JsNum.nan
  | JsNum.inf b => JsNum.inf b
  | JsNum.num q => JsNum.num (q - 1)

/-- JavaScript multiplication by POSTS_PER_PAGE = 5. -/
def jsMulFive : JsNum → JsNum
  | JsNum.nan => JsNum.nan
  | JsNum.inf b => JsNum.inf b
  | JsNum.num q => JsNum.num (5 * q)

/-- ToIntegerOrInfinity followed by the slice clamping of one argument:
NaN becomes 0, -Infinity clamps to 0, +Infinity clamps to the length, a
finite value is truncated toward zero and then resolved as a slice index. -/
def jsSliceIndexJ (len : Nat) : JsNum → Nat
  | JsNum.nan => 0
  | JsNum.inf b => if b then 0 else len
  | JsNum.num q => jsSliceIndex len (if q < 0 then ⌈q⌉ else ⌊q⌋)

/-- `l.slice(a, b)` with JavaScript number arguments. -/
def jsSliceJ (l : List α) (a b : JsNum) : List α :=
  (l.take (jsSliceIndexJ l.length b)).drop (jsSliceIndexJ l.length a)

/-- The displayed post slice of the blog list page (src/app/blog/page.tsx)
for a given store and raw `page` query parameter: filter to published posts,
sort by date descending, slice `[5 * (currentPage - 1), 5 * currentPage)`. -/
def blogDisplayPosts (store : List Post) (pageParam : Option String) : List Post :=
  let sortedPosts := sortPosts (store.filter (·.published))
  let cp := currentPage pageParam
  jsSliceJ sortedPosts (jsMulFive (jsSubOne cp)) (jsMulFive cp)

/-- Home (src/app/page.tsx): `sortPosts(posts).slice(0, 5)` — the latest
posts shown on the home page; note the absence of a published filter. -/
def homeLatestPosts (posts : List Post) : List Post := jsSlice (sortPosts posts) 0 5

/-- Concrete post fixture. -/
def mkPost (sl d : String) (tags : Option (List String)) (pub : Bool) : Post :=
  { slug := "blog/" ++ sl, slugAsParams := sl, title := sl, description := none,
    date := d, tags := tags, published := pub }

/-- An unpublished draft, dated latest of all fixtures. -/
def draftPost : Post := mkPost "draft-post" "2024-09-01" (some ["JavaScript"]) false

def postMar : Post := mkPost "async-js" "2024-03-25" (some ["JavaScript", "async"]) true

def postAug : Post := mkPost "data-types" "2024-08-03" (some ["JavaScript"]) true

/-- Six published posts already ordered by date descending. -/
def orderedSixPosts : List Post :=
  [mkPost "p6" "2024-06-01" none true,
   mkPost "p5" "2024-05-01" none true,
   mkPost "p4" "2024-04-01" none true,
   mkPost "p3" "2024-03-01" none true,
   mkPost "p2" "2024-02-01" none true,
   mkPost "p1" "2024-01-01" none true]

theorem charsLt_irrefl : ∀ x : List Char, charsLt x x = false
  | [] => rfl
  | a :: as => by simp [charsLt, lt_irrefl, charsLt_irrefl as]

theorem charsLt_asymm : ∀ x y : List Char, charsLt x y = true → charsLt y x = false := by
  intro x
  induction x with
  | nil =>
    intro y h
    cases y with
    | nil => simp [charsLt] at h
    | cons b bs => simp [charsLt]
  | cons a as ih =>
    intro y h
    cases y with
    | nil => simp [charsLt] at h
    | cons b bs =>
      simp only [charsLt] at h ⊢
      rcases lt_trichotomy a b with hab | hab | hab
      · simp [hab, asymm hab]
      · subst hab
        simp only [lt_irrefl, if_false] at h ⊢
        exact ih bs h
      · simp [hab, asymm hab] at h

theorem charsLt_le_trans :
    ∀ x y z : List Char, charsLt x y = false → charsLt y z = false → charsLt x z = false := by
  intro x
  induction x with
  | nil =>
    intro y z h1 h2
    cases y with
    | nil => exact h2
    | cons b bs => simp [charsLt] at h1
  | cons a as ih =>
    intro y z h1 h2
    cases z with
    | nil => simp [charsLt]
    | cons c cs =>
      cases y with
      | nil => simp [charsLt] at h2
      | cons b bs =>
        simp only [charsLt] at h1 h2 ⊢
        rcases lt_trichotomy a b with hab | hab | hab
        · simp [hab] at h1
        · subst hab
          rcases lt_trichotomy a c with hac | hac | hac
          · simp [hac] at h2
          · subst hac
            simp only [lt_irrefl, if_false] at h1 h2 ⊢
            exact ih bs cs h1 h2
          · simp [hac, asymm hac]
        · rcases lt_trichotomy b c with hbc | hbc | hbc
          · simp [hbc] at h2
          · subst hbc
            simp [hab, asymm hab]
          · have hca : c < a := lt_trans hbc hab
            simp [hca, asymm hca]

theorem postCmpLe_trans :
    ∀ a b c : Post, postCmpLe a b = true → postCmpLe b c = true → postCmpLe a c = true := by
  intro a b c h1 h2
  simp only [postCmpLe, strLt, Bool.not_eq_true'] at h1 h2 ⊢
  exact charsLt_le_trans _ _ _ h1 h2

theorem postCmpLe_total : ∀ a b : Post, (postCmpLe a b || postCmpLe b a) = true := by
  intro a b
  simp only [postCmpLe, strLt, Bool.or_eq_true, Bool.not_eq_true']
  rcases h : charsLt a.date.data b.date.data with _ | _
  · exact Or.inl rfl
  · exact Or.inr (charsLt_asymm _ _ h)

theorem sortPosts_pairwise (l : List Post) :
    (sortPosts l).Pairwise (fun a b => strLt a.date b.date = false) := by
  have h := List.sorted_mergeSort postCmpLe_trans postCmpLe_total l
  refine h.imp ?_
  intro a b hab
  simpa [postCmpLe, Bool.not_eq_true'] using hab

theorem sortPosts_perm (l : List Post) : (sortPosts l).Perm l :=
  List.mergeSort_perm l postCmpLe

theorem jsSliceIndex_ofNat (len : Nat) (n : Nat) :
    jsSliceIndex len (n : Int) = min n len := by
  simp [jsSliceIndex]

/-- For a page number `p = k + 1 ≥ 1` the JavaScript slice degenerates to the
plain drop/take slice. -/
theorem paginateSlice_nat (N k : Nat) (l : List Post) :
    paginateSlice N ((k : Int) + 1) l = (l.drop (N * k)).take N := by
  have hs : ((N : Int) * ((k : Int) + 1 - 1)) = ((N * k : Nat) : Int) := by push_cast; ring
  have he : ((N : Int) * ((k : Int) + 1)) = ((N * (k + 1) : Nat) : Int) := by push_cast; ring
  simp only [paginateSlice, jsSlice, hs, he, jsSliceIndex_ofNat]
  rcases le_or_lt (N * k) l.length with hk | hk
  · have h1 : min (N * k) l.length = N * k := min_eq_left hk
    rw [h1, List.drop_take, List.take_eq_take]
    simp only [List.length_drop, Nat.mul_succ]
    omega
  · have h1 : min (N * k) l.length = l.length := min_eq_right hk.le
    rw [h1, List.drop_eq_nil_of_le (by rw [List.length_take]; exact min_le_right _ _),
      List.drop_eq_nil_of_le hk.le, List.take_nil]

theorem totalPagesOf_mul_ge (N len : Nat) (hN : 0 < N) : len ≤ N * totalPagesOf N len := by
  have h1 := Nat.div_add_mod (len + N - 1) N
  have h2 := Nat.mod_lt (len + N - 1) hN
  simp only [totalPagesOf]
  omega

theorem totalPagesOf_le (N len k : Nat) (hN : 0 < N) (h : len ≤ N * k) :
    totalPagesOf N len ≤ k := by
  rw [totalPagesOf, Nat.div_le_iff_le_mul_add_pred hN]
  omega

/-- Concatenating the drop/take pages 1..t reproduces the first `N * t`
elements. -/
theorem join_pages (N : Nat) :
    ∀ (t : Nat) (l : List Post),
      (((List.range t).map fun i => (l.drop (N * i)).take N)).flatten = l.take (N * t) := by
  intro t
  induction t with
  | zero => intro l; simp
  | succ t ih =>
    intro l
    rw [List.range_succ, List.map_append, List.flatten_append]
    simp only [List.map_cons, List.map_nil, List.flatten_cons, List.flatten_nil, List.append_nil]
    rw [ih, Nat.mul_succ, List.take_add]

theorem jsSplitOnChar_ne_nil (sep : Char) : ∀ s, jsSplitOnChar sep s ≠ [] := by
  intro s
  cases s with
  | nil => simp [jsSplitOnChar]
  | cons c cs =>
    cases h : jsSplitOnChar sep cs with
    | nil => simp [jsSplitOnChar, h]
    | cons seg rest =>
      simp only [jsSplitOnChar, h]
      by_cases hc : c = sep <;> simp [hc]

theorem joinChars_cons_cons (sep c : Char) (seg : List Char) (rest : List (List Char)) :
    joinChars sep ((c :: seg) :: rest) = c :: joinChars sep (seg :: rest) := by
  cases rest <;> simp [joinChars]

/-- Splitting on a separator and joining the segments back recovers the
original string (character-list level). -/
theorem joinChars_jsSplitOnChar (sep : Char) :
    ∀ s, joinChars sep (jsSplitOnChar sep s) = s := by
  intro s
  induction s with
  | nil => rfl
  | cons c cs ih =>
    cases h : jsSplitOnChar sep cs with
    | nil => exact absurd h (jsSplitOnChar_ne_nil sep cs)
    | cons seg rest =>
      rw [h] at ih
      simp only [jsSplitOnChar, h]
      by_cases hc : c = sep
      · subst hc
        simp only [if_pos rfl, joinChars, List.nil_append, ih]
      · rw [if_neg hc, joinChars_cons_cons, ih]

theorem joinSlug_splitSlug (s : String) : joinSlug (splitSlug s) = s := by
  have hmap : (jsSplitOnChar '/' s.data).map (fun seg => (String.mk seg).data)
      = jsSplitOnChar '/' s.data := by
    simp
  simp only [joinSlug, splitSlug, List.map_map, Function.comp_def, hmap,
    joinChars_jsSplitOnChar]

theorem recordGet_recordInc (m : List (String × Nat)) (s t : String) :
    recordGet (recordInc m s) t
      = if s = t then some ((recordGet m t).getD 0 + 1) else recordGet m t := by
  induction m with
  | nil =>
    by_cases hst : s = t
    · subst hst
      simp [recordInc, recordGet, List.find?]
    · have h : (s == t) = false := beq_eq_false_iff_ne.mpr hst
      simp [recordInc, recordGet, List.find?, h, hst]
  | cons kv rest ih =>
    obtain ⟨k, v⟩ := kv
    by_cases hks : k = s
    · subst hks
      by_cases hkt : k = t
      · subst hkt
        simp [recordInc, recordGet, List.find?]
      · have h : (k == t) = false := beq_eq_false_iff_ne.mpr hkt
        simp [recordInc, recordGet, List.find?, h, hkt]
    · by_cases hkt : k = t
      · subst hkt
        have hsk : s ≠ k := fun h => hks h.symm
        simp [recordInc, recordGet, List.find?, hks, hsk]
      · have h : (k == t) = false := beq_eq_false_iff_ne.mpr hkt
        have h2 := ih
        simp only [recordGet] at h2
        simp [recordInc, recordGet, List.find?, hks, h, hkt, h2]

theorem recordGet_foldl_tags (t : String) :
    ∀ (ts : List String) (m : List (String × Nat)),
      recordGet (ts.foldl recordInc m) t
        = if recordGet m t = none ∧ ts.count t = 0 then none
          else some ((recordGet m t).getD 0 + ts.count t) := by
  intro ts
  induction ts with
  | nil =>
    intro m
    cases h : recordGet m t <;> simp [h]
  | cons s rest ih =>
    intro m
    rw [List.foldl_cons, ih (recordInc m s), recordGet_recordInc]
    by_cases hst : s = t
    · subst hst
      rw [if_pos rfl, List.count_cons_self]
      have hne : ¬(some ((recordGet m s).getD 0 + 1) = none ∧ rest.count s = 0) := by simp
      rw [if_neg hne, if_neg (by simp : ¬(recordGet m s = none ∧ rest.count s + 1 = 0))]
      simp only [Option.getD_some]
      exact congrArg some (by omega)
    · have hts : t ≠ s := fun h => hst h.symm
      have hcount : (s :: rest).count t = rest.count t := List.count_cons_of_ne hts rest
      simp only [if_neg hst, hcount]

theorem recordGet_getAllTags_fold (t : String) :
    ∀ (posts : List Post) (m : List (String × Nat)),
      recordGet (posts.foldl (fun tags post => (post.tags.getD []).foldl recordInc tags) m) t
        = if recordGet m t = none ∧ tagOccurrences posts t = 0 then none
          else some ((recordGet m t).getD 0 + tagOccurrences posts t) := by
  intro posts
  induction posts with
  | nil =>
    intro m
    cases h : recordGet m t <;> simp [tagOccurrences, h]
  | cons p rest ih =>
    intro m
    rw [List.foldl_cons, ih, recordGet_foldl_tags]
    have hocc : tagOccurrences (p :: rest) t
        = (p.tags.getD []).count t + tagOccurrences rest t := by
      simp [tagOccurrences]
    rw [hocc]
    rcases hm : recordGet m t with _ | v <;>
      by_cases h1 : (p.tags.getD []).count t = 0 <;>
      by_cases h2 : tagOccurrences rest t = 0 <;>
        (simp [hm, h1, h2]; try omega)

theorem toLower_of_isLower (c : Char) (h : c.isLower = true) : c.toLower = c := by
  simp only [Char.isLower, Bool.and_eq_true, decide_eq_true_eq, UInt32.le_def,
    BitVec.le_def] at h
  rw [Char.toLower, if_neg]
  rw [Char.toNat]
  simp only [UInt32.toNat] at h ⊢
  have h97 : ((97 : UInt32)).toBitVec.toNat = 97 := by decide
  have h122 : ((122 : UInt32)).toBitVec.toNat = 122 := by decide
  omega

theorem toLower_of_isDigit (c : Char) (h : c.isDigit = true) : c.toLower = c := by
  simp only [Char.isDigit, Bool.and_eq_true, decide_eq_true_eq, UInt32.le_def,
    BitVec.le_def] at h
  rw [Char.toLower, if_neg]
  rw [Char.toNat]
  simp only [UInt32.toNat] at h ⊢
  have h48 : ((48 : UInt32)).toBitVec.toNat = 48 := by decide
  have h57 : ((57 : UInt32)).toBitVec.toNat = 57 := by decide
  omega

theorem slugChar_out (x o : Char) (h : slugChar x = some o) :
    Char.toLower o = o ∧ slugChar o = some o := by
  by_cases hx : x = ' '
  · subst hx
    simp [slugChar] at h
    subst h
    exact ⟨by decide, by decide⟩
  · simp only [slugChar, if_neg hx] at h
    by_cases hk : isSlugKeep x = true
    · rw [if_pos hk, Option.some.injEq] at h
      subst h
      have hk' := hk
      simp only [isSlugKeep, Bool.or_eq_true, beq_iff_eq] at hk'
      have hlow : Char.toLower x = x := by
        rcases hk' with ((h5 | h6) | h4) | h2
        · exact toLower_of_isLower x h5
        · exact toLower_of_isDigit x h6
        · subst h4; decide
        · subst h2; decide
      refine ⟨hlow, ?_⟩
      simp [slugChar, hx, hk]
    · rw [if_neg hk] at h
      exact absurd h (by simp)

theorem slugChars_idem : ∀ l : List Char, slugChars (slugChars l) = slugChars l := by
  intro l
  induction l with
  | nil => rfl
  | cons c rest ih =>
    simp only [slugChars, List.map_cons, List.filterMap_cons]
    cases h : slugChar (Char.toLower c) with
    | none => exact ih
    | some o =>
      obtain ⟨hlow, hkeep⟩ := slugChar_out _ _ h
      simp only [List.map_cons, List.filterMap_cons, hlow, hkeep]
      exact congrArg (o :: ·) ih

theorem slug_fixed (s : String) : slug (slug s) = slug s :=
  congrArg String.mk (slugChars_idem s.data)

/-- C6: for every list of posts, the output of sortPosts is non-increasing by
date (no element is date-less than a later one), and any two input posts
with strictly ordered dates appear in that order: if a.date > b.date then a
appears before b in the output. -/
theorem sortPosts_order_correct (l : List Post) :
    (sortPosts l).Pairwise (fun a b => strLt a.date b.date = false)
    ∧ ∀ a b : Post, a ∈ l → b ∈ l → strLt b.date a.date = true →
        ∃ i j : Fin (sortPosts l).length,
          (i : Nat) < (j : Nat) ∧ (sortPosts l).get i = a ∧ (sortPosts l).get j = b := by
  refine ⟨sortPosts_pairwise l, ?_⟩
  intro a b ha hb hba
  have hperm := sortPosts_perm l
  obtain ⟨i, hi⟩ := List.mem_iff_get.mp (hperm.mem_iff.mpr ha)
  obtain ⟨j, hj⟩ := List.mem_iff_get.mp (hperm.mem_iff.mpr hb)
  refine ⟨i, j, ?_, hi, hj⟩
  rcases lt_trichotomy (i : Nat) (j : Nat) with h | h | h
  · exact h
  · exfalso
    have hab : a = b := by rw [← hi, ← hj, Fin.ext h]
    rw [hab] at hba
    simp [strLt, charsLt_irrefl] at hba
  · exfalso
    have hr := List.pairwise_iff_get.mp (sortPosts_pairwise l) j i h
    rw [hi, hj] at hr
    rw [hr] at hba
    cases hba

/-- C6 witness: on the concrete two-post store the later-dated post comes
first. -/
theorem sortPosts_order_correct_witness :
    ∃ i j : Fin (sortPosts [postMar, postAug]).length,
      (i : Nat) < (j : Nat)
      ∧ (sortPosts [postMar, postAug]).get i = postAug
      ∧ (sortPosts [postMar, postAug]).get j = postMar :=
  (sortPosts_order_correct [postMar, postAug]).2 postAug postMar
    (by decide) (by decide) (by decide)

/-- C3 counterexample: sortPosts does mutate the caller-visible array — after
`sortPosts(arr)` on the two-post array, the array no longer holds its
original order. -/
theorem sortPosts_mutates_caller_array :
    callerArrayAfterSortPosts [postMar, postAug] ≠ [postMar, postAug] := by
  intro h
  have hp := sortPosts_pairwise [postMar, postAug]
  have h2 : sortPosts [postMar, postAug] = [postMar, postAug] := h
  rw [h2] at hp
  have h3 := (List.pairwise_cons.mp hp).1 postAug (by simp)
  exact absurd h3 (by decide)

/-- C3 amended: sortPosts sorts in place — it returns the same ordered view
that the caller array holds after the call: a permutation of the input,
non-increasing by date, not the original order. -/
theorem sortPosts_inplace_result (arr : List Post) :
    callerArrayAfterSortPosts arr = sortPosts arr
    ∧ (callerArrayAfterSortPosts arr).Perm arr
    ∧ (callerArrayAfterSortPosts arr).Pairwise (fun a b => strLt a.date b.date = false) :=
  ⟨rfl, sortPosts_perm arr, sortPosts_pairwise arr⟩

/-- C1: the home page does not filter by published — a store whose only
(and hence most recent) post is an unpublished draft still shows that draft
among the latest posts, contradicting the requirement that unpublished
posts never appear in a public listing. -/
theorem homeLatestPosts_shows_unpublished :
    draftPost.published = false ∧ draftPost ∈ homeLatestPosts [draftPost] := by
  refine ⟨rfl, ?_⟩
  have hs : sortPosts [draftPost] = [draftPost] := by simp [sortPosts]
  rw [homeLatestPosts, hs]
  decide

/-- C2 counterexample: page -1 is a requested page number below 1 (and
reachable, since `Number("-1") = -1` is truthy), yet its displayed slice is
NOT empty on a six-post ordered list: JavaScript slice treats the negative
bounds -10 and -5 as counting from the end, producing the first post. -/
theorem displayPosts_negative_page_nonempty :
    (-1 : Int) < 1
    ∧ jsNumber (some "-1") = JsNum.num (-1)
    ∧ displayPosts orderedSixPosts (-1) = [mkPost "p6" "2024-06-01" none true]
    ∧ displayPosts orderedSixPosts (-1) ≠ [] := by
  refine ⟨by decide, by decide, by decide, by decide⟩

/-- C2 amended: the displayed slice is empty for page 0 and for every page
beyond totalPages; for negative pages JavaScript slice semantics apply
(indices count from the end) and the slice can be non-empty. -/
theorem displayPosts_out_of_range (l : List Post) (p : Int)
    (h : p = 0 ∨ (totalPages l.length : Int) < p) :
    displayPosts l p = [] := by
  rcases h with h0 | hgt
  · subst h0
    have hend : ((POSTS_PER_PAGE : Nat) : Int) * (0 : Int) = ((0 : Nat) : Int) := by norm_num
    simp only [displayPosts, paginateSlice, jsSlice, hend, jsSliceIndex_ofNat]
    simp
  · have hp1 : (0 : Int) ≤ p - 1 := by
      have : (0 : Int) ≤ (totalPages l.length : Int) := Int.natCast_nonneg _
      omega
    obtain ⟨k, hk⟩ : ∃ k : Nat, p = (k : Int) + 1 := ⟨(p - 1).toNat, by omega⟩
    subst hk
    have hdp : displayPosts l ((k : Int) + 1) = (l.drop (POSTS_PER_PAGE * k)).take POSTS_PER_PAGE :=
      paginateSlice_nat POSTS_PER_PAGE k l
    have htp : totalPages l.length ≤ k := by
      have := hgt
      omega
    have hlen : l.length ≤ POSTS_PER_PAGE * k := by
      calc l.length ≤ POSTS_PER_PAGE * totalPages l.length :=
            totalPagesOf_mul_ge POSTS_PER_PAGE l.length (by decide)
        _ ≤ POSTS_PER_PAGE * k := Nat.mul_le_mul_left _ htp
    rw [hdp, List.drop_eq_nil_of_le hlen, List.take_nil]

/-- C2 witness: page 3 of the six-post list (totalPages = 2) is empty. -/
theorem displayPosts_out_of_range_witness :
    ((totalPages orderedSixPosts.length : Int) < 3) ∧ displayPosts orderedSixPosts 3 = [] :=
  ⟨by decide, displayPosts_out_of_range orderedSixPosts 3 (Or.inr (by decide))⟩

/-- C5: for every page size N > 0 and every ordered post list, the pages
1..totalPages concatenate back to the whole list (each post exactly once,
no omissions or repeats), pages beyond totalPages are empty, totalPages is
the ceiling of length / N, and it is 0 on the empty list. -/
theorem pagination_complete (N : Nat) (hN : 0 < N) (l : List Post) :
    (((List.range (totalPagesOf N l.length)).map
        fun i : Nat => paginateSlice N ((i : Int) + 1) l)).flatten = l
    ∧ (∀ p : Nat, totalPagesOf N l.length < p → paginateSlice N (p : Int) l = [])
    ∧ (l.length ≤ N * totalPagesOf N l.length
        ∧ ∀ k : Nat, l.length ≤ N * k → totalPagesOf N l.length ≤ k)
    ∧ (l.length = 0 → totalPagesOf N l.length = 0) := by
  refine ⟨?_, ?_, ⟨totalPagesOf_mul_ge N l.length hN, fun k hk => totalPagesOf_le N l.length k hN hk⟩, ?_⟩
  · rw [List.map_congr_left (fun i _ => paginateSlice_nat N i l), join_pages,
      List.take_of_length_le (totalPagesOf_mul_ge N l.length hN)]
  · intro p hp
    cases p with
    | zero => omega
    | succ k =>
      have hcast : ((k + 1 : Nat) : Int) = (k : Int) + 1 := by push_cast; ring
      rw [hcast, paginateSlice_nat]
      have htp : totalPagesOf N l.length ≤ k := by omega
      have hlen : l.length ≤ N * k :=
        le_trans (totalPagesOf_mul_ge N l.length hN) (Nat.mul_le_mul_left _ htp)
      rw [List.drop_eq_nil_of_le hlen, List.take_nil]
  · intro h0
    rw [totalPagesOf, h0]
    exact Nat.div_eq_of_lt (by omega)

/-- C5 witness: page size 5 on the six-post list — two pages concatenate to
the list, page 3 is empty, totalPages behaves as the ceiling. -/
theorem pagination_complete_witness :
    (((List.range (totalPagesOf 5 orderedSixPosts.length)).map
        fun i : Nat => paginateSlice 5 ((i : Int) + 1) orderedSixPosts)).flatten = orderedSixPosts
    ∧ (∀ p : Nat, totalPagesOf 5 orderedSixPosts.length < p
        → paginateSlice 5 (p : Int) orderedSixPosts = [])
    ∧ (orderedSixPosts.length ≤ 5 * totalPagesOf 5 orderedSixPosts.length
        ∧ ∀ k : Nat, orderedSixPosts.length ≤ 5 * k → totalPagesOf 5 orderedSixPosts.length ≤ k)
    ∧ (orderedSixPosts.length = 0 → totalPagesOf 5 orderedSixPosts.length = 0) :=
  pagination_complete 5 (by decide) orderedSixPosts

/-- C4: resolving the path obtained by splitting a stored post's
slugAsParams on "/" finds a post with the same slugAsParams, and — under the
authoring invariant that slugAsParams is unique across the store — an
unpublished post resolves to the not-found page view. -/
theorem getPostFromParams_exact (store : List Post) (P : Post) (hP : P ∈ store)
    (huniq : (store.map Post.slugAsParams).Nodup) :
    (∃ Q, getPostFromParams store (splitSlug P.slugAsParams) = some Q
        ∧ Q.slugAsParams = P.slugAsParams)
    ∧ (P.published = false → postPage store (splitSlug P.slugAsParams) = PageView.notFound) := by
  have hkey : joinSlug (splitSlug P.slugAsParams) = P.slugAsParams := joinSlug_splitSlug _
  have hsome : (store.find? fun post => post.slugAsParams == joinSlug (splitSlug P.slugAsParams)).isSome = true :=
    List.find?_isSome.mpr ⟨P, hP, by rw [hkey]; exact beq_self_eq_true _⟩
  obtain ⟨Q, hQfind⟩ := Option.isSome_iff_exists.mp hsome
  have hQslug : Q.slugAsParams = P.slugAsParams := by
    have := List.find?_some hQfind
    rw [hkey] at this
    exact beq_iff_eq.mp this
  refine ⟨⟨Q, hQfind, hQslug⟩, ?_⟩
  intro hpub
  have hQP : Q = P :=
    List.inj_on_of_nodup_map huniq (List.mem_of_find?_eq_some hQfind) hP hQslug
  rw [postPage, show getPostFromParams store (splitSlug P.slugAsParams) = some Q from hQfind]
  rw [hQP]
  simp [hpub]

/-- C4 witness: the concrete one-post store with an unpublished draft — the
resolver finds the draft by its split slug, and the page view is not-found. -/
theorem getPostFromParams_exact_witness :
    (∃ Q, getPostFromParams [draftPost] (splitSlug draftPost.slugAsParams) = some Q
        ∧ Q.slugAsParams = draftPost.slugAsParams)
    ∧ (draftPost.published = false
        → postPage [draftPost] (splitSlug draftPost.slugAsParams) = PageView.notFound) :=
  getPostFromParams_exact [draftPost] draftPost (by decide) (by decide)

/-- C7: the tag record built by getAllTags maps every label occurring in any
post (published or not) to its total number of occurrences, counting each
occurrence in each tag list, with absent tag fields contributing nothing;
labels with no occurrences are absent from the record. -/
theorem getAllTags_counts_occurrences (posts : List Post) (t : String) :
    recordGet (getAllTags posts) t
      = if tagOccurrences posts t = 0 then none else some (tagOccurrences posts t) := by
  have h := recordGet_getAllTags_fold t posts []
  have hempty : recordGet [] t = none := rfl
  rw [getAllTags, h, hempty]
  by_cases h0 : tagOccurrences posts t = 0 <;> simp [h0]

/-- C9: the slug normalizer is idempotent. -/
theorem slug_idempotent (t : String) : slug (slug t) = slug t := slug_fixed t

/-- C10: getPostsByTagSlug slugifies the posts' tags but never its tag
argument, so a tag argument that is not a fixed point of the slug
normalizer matches nothing and yields the empty list. -/
theorem getPostsByTagSlug_unnormalized_empty (posts : List Post) (tag : String)
    (h : slug tag ≠ tag) : getPostsByTagSlug posts tag = [] := by
  rw [getPostsByTagSlug, List.filter_eq_nil_iff]
  intro post _
  cases htags : post.tags with
  | none => simp
  | some ts =>
    simp only [htags]
    intro hcon
    have hmem : tag ∈ ts.map slug := by simpa using hcon
    obtain ⟨x, _, hxeq⟩ := List.mem_map.mp hmem
    rw [← hxeq] at h
    exact h (slug_fixed x)

/-- C10 witness: the label "JavaScript" is not slug-normal (its slug is
"javascript"), so even a store whose post carries exactly that tag yields
no match. -/
theorem getPostsByTagSlug_unnormalized_empty_witness :
    getPostsByTagSlug [postMar] "JavaScript" = [] :=
  getPostsByTagSlug_unnormalized_empty [postMar] "JavaScript" (by decide)

/-- C8: a missing page query parameter, or one that Number-parses to NaN,
defaults to page 1 without error: the displayed slice of the blog list page
equals the page-1 slice of the sorted published posts. -/
theorem blogDisplay_invalid_page_is_page_one (store : List Post) (pageParam : Option String)
    (h : pageParam = none ∨ ∃ s, pageParam = some s ∧ jsNumber (some s) = JsNum.nan) :
    blogDisplayPosts store pageParam
      = displayPosts (sortPosts (store.filter fun p => p.published)) 1 := by
  have hnan : jsNumber pageParam = JsNum.nan := by
    rcases h with h | ⟨s, rfl, hs⟩
    · rw [h]; rfl
    · exact hs
  have hcp : currentPage pageParam = JsNum.num 1 := by
    rw [currentPage, hnan]
  have hq0 : (5 : ℚ) * ((1 : ℚ) - 1) = 0 := by norm_num
  have hq5 : (5 : ℚ) * (1 : ℚ) = 5 := by norm_num
  have hf0 : ⌊(0 : ℚ)⌋ = 0 := Int.floor_zero
  have hf5 : ⌊(5 : ℚ)⌋ = (5 : Int) := by norm_num
  have hi0 : ((POSTS_PER_PAGE : Nat) : Int) * ((1 : Int) - 1) = 0 := by norm_num
  have hi5 : ((POSTS_PER_PAGE : Nat) : Int) * (1 : Int) = 5 := by
    norm_num [POSTS_PER_PAGE]
  simp only [blogDisplayPosts, hcp, jsSubOne, jsMulFive, jsSliceJ, jsSliceIndexJ,
    hq0, hq5, hf0, hf5, displayPosts, paginateSlice, jsSlice, hi0, hi5]
  norm_num

/-- C8 witness: the non-numeric parameter "abc" on a one-post store displays
the page-1 slice. -/
theorem blogDisplay_invalid_page_is_page_one_witness :
    blogDisplayPosts [postMar] (some "abc")
      = displayPosts (sortPosts ([postMar].filter fun p => p.published)) 1 :=
  blogDisplay_invalid_page_is_page_one [postMar] (some "abc")
    (Or.inr ⟨"abc", rfl, by decide⟩)

end CodeCraft
